import Mathlib

/-!
Verification of the k8s-log-etl pipeline (Go) against its specification.

The Go sources are shallowly embedded: decoded JSON objects become an
inductive `Json` type with association-list objects, pure functions become
Lean functions, and the concurrent driver becomes an explicit step relation.
Go standard-library behaviour that the repository only calls (JSON decoding,
RFC3339 time parsing) is abstracted as function parameters.
-/

/-- A decoded JSON value, mirroring Go's `interface{}` result of
`encoding/json.Unmarshal`.  Objects are association lists with unique keys
(Go maps); insertion order is irrelevant to every property proved here. -/
inductive Json where
  | str (s : String)
  | num (q : ℚ)
  | jb (b : Bool)
  | null
  | arr (xs : List Json)
  | obj (kvs : List (String × Json))

/-- A raw decoded object (`map[string]interface{}` in Go). -/
abbrev RawObj := List (String × Json)

/-- Go map lookup `raw[k]`. -/
def lookupKey (raw : RawObj) (k : String) : Option Json :=
  (raw.find? (fun kv => kv.1 == k)).map (·.2)

/-- The value at key `k` when it is string-typed, else `none`.  This is the
Go idiom `if v, ok := raw[k]; ok { if s, ok := v.(string); ok { ... } }`:
non-string values are treated as absent. -/
def strAt (raw : RawObj) (k : String) : Option String :=
  match lookupKey raw k with
  | some (.str s) => some s
  | _ => none

/-- The value at key `k` when it is an object (`map[string]interface{}`). -/
def objAt (raw : RawObj) (k : String) : Option (List (String × Json)) :=
  match lookupKey raw k with
  | some (.obj m) => some m
  | _ => none


/-- Go `strings.TrimSpace`.  Lean's `Char.isWhitespace` covers the ASCII
whitespace characters; the non-ASCII Unicode space classes that Go also
trims are not exercised by any property proved here. -/
def goTrim (s : String) : String :=
  ⟨((s.data.dropWhile Char.isWhitespace).reverse.dropWhile Char.isWhitespace).reverse⟩

/-- Go `strings.ToUpper` (ASCII letters; sufficient for log levels). -/
def goUpper (s : String) : String := ⟨s.data.map Char.toUpper⟩

/-- Go `strings.ToLower` (ASCII letters; sufficient for service names). -/
def goLower (s : String) : String := ⟨s.data.map Char.toLower⟩

/-- `model.Normalized` from `src/internal/model/normalized.go`. -/
@[ext]
structure Normalized where
  TS : String
  Level : String
  Service : String
  Namespace : String
  Pod : String
  Node : String
  Message : String
  TraceID : String
  Fields : List (String × Json)

/-- The Go zero value `var output model.Normalized`. -/
def emptyNormalized : Normalized :=
  { TS := "", Level := "", Service := "", Namespace := "", Pod := "",
    Node := "", Message := "", TraceID := "", Fields := [] }

/-! Field-extraction blocks of `stages.Normalize`
(`src/internal/stages/normalize.go`), one definition per contiguous block of
the Go function, applied in the Go statement order by `extract`. -/

/-- The `ts`/`time` block: `ts` trimmed, falling back to `time` when still empty. -/
def setTS (raw : RawObj) (o : Normalized) : Normalized :=
  let o1 := match strAt raw "ts" with
    | some s => { o with TS := goTrim s }
    | none => o
  if o1.TS = "" then
    match strAt raw "time" with
    | some s => { o1 with TS := goTrim s }
    | none => o1
  else o1

/-- The `level`/`severity` block. -/
def setLevel (raw : RawObj) (o : Normalized) : Normalized :=
  let o1 := match strAt raw "level" with
    | some s => { o with Level := goTrim s }
    | none => o
  if o1.Level = "" then
    match strAt raw "severity" with
    | some s => { o1 with Level := goTrim s }
    | none => o1
  else o1

/-- The `msg`/`message` block. -/
def setMessage (raw : RawObj) (o : Normalized) : Normalized :=
  let o1 := match strAt raw "msg" with
    | some s => { o with Message := goTrim s }
    | none => o
  if o1.Message = "" then
    match strAt raw "message" with
    | some s => { o1 with Message := goTrim s }
    | none => o1
  else o1

/-- The `service`/`app`/`component` block. -/
def setService (raw : RawObj) (o : Normalized) : Normalized :=
  let o1 := match strAt raw "service" with
    | some s => { o with Service := goTrim s }
    | _ => o
  let o2 :=
    if o1.Service = "" then
      match strAt raw "app" with
      | some s => { o1 with Service := goTrim s }
      | _ => o1
    else o1
  if o2.Service = "" then
    match strAt raw "component" with
    | some s => { o2 with Service := goTrim s }
    | _ => o2
  else o2

/-- The nested `kubernetes` object block: `namespace_name`, `pod_name`,
`node_name` are taken verbatim (no trimming in the source). -/
def setKubernetes (raw : RawObj) (o : Normalized) : Normalized :=
  match objAt raw "kubernetes" with
  | some m =>
    let o1 := match strAt m "namespace_name" with
      | some s => { o with Namespace := s }
      | none => o
    let o2 := match strAt m "pod_name" with
      | some s => { o1 with Pod := s }
      | none => o1
    match strAt m "node_name" with
    | some s => { o2 with Node := s }
    | none => o2
  | none => o

/-- The top-level `namespace` block: overrides the nested value, verbatim. -/
def setNamespaceTop (raw : RawObj) (o : Normalized) : Normalized :=
  match strAt raw "namespace" with
  | some s => { o with Namespace := s }
  | _ => o

/-- The top-level `pod` block: overrides the nested value, verbatim. -/
def setPodTop (raw : RawObj) (o : Normalized) : Normalized :=
  match strAt raw "pod" with
  | some s => { o with Pod := s }
  | _ => o

/-- The top-level `node` block (trimmed) followed by the `hostname`
fallback (trimmed, used only when the node is still empty). -/
def setNodeTop (raw : RawObj) (o : Normalized) : Normalized :=
  let o1 := match strAt raw "node" with
    | some s => { o with Node := goTrim s }
    | none => o
  if o1.Node = "" then
    match strAt raw "hostname" with
    | some s => { o1 with Node := goTrim s }
    | none => o1
  else o1

/-- The `trace_id`/`trace` block. -/
def setTraceID (raw : RawObj) (o : Normalized) : Normalized :=
  let o1 := match strAt raw "trace_id" with
    | some s => { o with TraceID := goTrim s }
    | none => o
  if o1.TraceID = "" then
    match strAt raw "trace" with
    | some s => { o1 with TraceID := goTrim s }
    | none => o1
  else o1

/-- The consumed alias set of the passthrough-fields loop in `Normalize`. -/
def consumedKeys : List String :=
  ["ts", "time", "hostname", "level", "severity", "msg", "message",
   "service", "app", "component", "kubernetes", "trace_id", "trace",
   "namespace", "pod", "node"]

/-- The remaining-fields loop: every key outside the consumed alias set
flows into `Fields` verbatim. -/
def setFields (raw : RawObj) (o : Normalized) : Normalized :=
  { o with Fields := raw.filter (fun kv => !(consumedKeys.contains kv.1)) }

/-- The extraction phase of `stages.Normalize`, applying the Go blocks in
statement order. -/
def extract (raw : RawObj) : Normalized :=
  setFields raw (setTraceID raw (setNodeTop raw (setPodTop raw
    (setNamespaceTop raw (setKubernetes raw (setService raw
      (setMessage raw (setLevel raw (setTS raw emptyNormalized)))))))))

/-- Structured form of the errors produced by `stages.Normalize`. -/
inductive NormError where
  | missingTimestamp
  | invalidTimestamp (v : String)
  | missingMessage
  | missingLevel

/-- The Go error text of each `NormError`, as built in `normalize.go`
(`%q` renders the offending value between double quotes). -/
def renderNormError : NormError → String
  | .missingTimestamp => "missing timestamp: expected ts/time in RFC3339"
  | .invalidTimestamp v => "invalid timestamp \"" ++ v ++ "\": expected RFC3339"
  | .missingMessage => "missing message: expected msg/message"
  | .missingLevel => "missing level: expected level/severity"

/-- `parseTimestamp` from `normalize.go`.  `tsParse` abstracts Go's
`time.Parse` under layout RFC3339Nano (falling back to plain RFC3339)
composed with re-serialization via `Format(time.RFC3339Nano)`: it returns
the canonical string of the parsed time, or `none` when neither layout
parses the input. -/
def parseTimestamp (tsParse : String → Option String) (ts : String) :
    Except NormError String :=
  if ts = "" then .error .missingTimestamp
  else
    match tsParse ts with
    | some t => .ok t
    | none => .error (.invalidTimestamp ts)

/-- `stages.Normalize`: extraction, then timestamp parse/re-serialization,
then the required-field checks in source order (message before level), and
finally the level uppercasing.  The Go function returns the partial record
alongside the error; callers discard it, so the embedding returns `Except`. -/
def Normalize (tsParse : String → Option String) (raw : RawObj) :
    Except NormError Normalized :=
  let o := extract raw
  match parseTimestamp tsParse o.TS with
  | .error e => .error e
  | .ok t =>
    let o1 := { o with TS := t }
    if o1.Message = "" then .error .missingMessage
    else if o1.Level = "" then .error .missingLevel
    else .ok { o1 with Level := goUpper o1.Level }

/-! Specification-style per-field selectors.  Each describes one canonical
field of the normalized record as a single function of the raw object; the
equivalence with the sequential `extract` is proved below. -/

/-- First non-empty trimmed string among the given alias keys. -/
def altTrim (raw : RawObj) (keys : List String) : String :=
  keys.foldl
    (fun acc k => if acc = "" then ((strAt raw k).map goTrim).getD "" else acc)
    ""

/-- The string at key `k` of the nested `kubernetes` object, verbatim. -/
def nestedStr (raw : RawObj) (k : String) : String :=
  match objAt raw "kubernetes" with
  | some m => (strAt m k).getD ""
  | none => ""

def specTS (raw : RawObj) : String := altTrim raw ["ts", "time"]

def specLevel (raw : RawObj) : String := altTrim raw ["level", "severity"]

def specMessage (raw : RawObj) : String := altTrim raw ["msg", "message"]

def specService (raw : RawObj) : String :=
  altTrim raw ["service", "app", "component"]

/-- Top-level `namespace` (verbatim) overrides the nested value. -/
def specNamespace (raw : RawObj) : String :=
  match strAt raw "namespace" with
  | some s => s
  | none => nestedStr raw "namespace_name"

/-- Top-level `pod` (verbatim) overrides the nested value. -/
def specPod (raw : RawObj) : String :=
  match strAt raw "pod" with
  | some s => s
  | none => nestedStr raw "pod_name"

/-- Top-level `node` (trimmed) overrides the nested value (verbatim);
`hostname` (trimmed) is the fallback when the result is still empty. -/
def specNode (raw : RawObj) : String :=
  let base := match strAt raw "node" with
    | some s => goTrim s
    | none => nestedStr raw "node_name"
  if base = "" then ((strAt raw "hostname").map goTrim).getD "" else base

def specTrace (raw : RawObj) : String := altTrim raw ["trace_id", "trace"]

/-- Passthrough fields: every key outside the consumed alias set, verbatim. -/
def specFields (raw : RawObj) : List (String × Json) :=
  raw.filter (fun kv => !(consumedKeys.contains kv.1))

/-! Equivalence of the sequential extraction with the per-field selectors. -/

theorem setTS_eq (raw : RawObj) (o : Normalized) (h : o.TS = "") :
    setTS raw o = { o with TS := specTS raw } := by
  unfold setTS specTS altTrim
  simp only [List.foldl_cons, List.foldl_nil]
  cases hts : strAt raw "ts" with
  | some s =>
    by_cases hs : goTrim s = ""
    · cases htime : strAt raw "time" with
      | some t => apply Normalized.ext <;> simp [*]
      | none => apply Normalized.ext <;> simp [*]
    · apply Normalized.ext <;> simp [*]
  | none =>
    cases htime : strAt raw "time" with
    | some t => apply Normalized.ext <;> simp [*]
    | none => apply Normalized.ext <;> simp [*]

theorem setLevel_eq (raw : RawObj) (o : Normalized) (h : o.Level = "") :
    setLevel raw o = { o with Level := specLevel raw } := by
  unfold setLevel specLevel altTrim
  simp only [List.foldl_cons, List.foldl_nil]
  cases h1 : strAt raw "level" with
  | some s =>
    by_cases hs : goTrim s = ""
    · cases h2 : strAt raw "severity" with
      | some t => apply Normalized.ext <;> simp [*]
      | none => apply Normalized.ext <;> simp [*]
    · apply Normalized.ext <;> simp [*]
  | none =>
    cases h2 : strAt raw "severity" with
    | some t => apply Normalized.ext <;> simp [*]
    | none => apply Normalized.ext <;> simp [*]

theorem setMessage_eq (raw : RawObj) (o : Normalized) (h : o.Message = "") :
    setMessage raw o = { o with Message := specMessage raw } := by
  unfold setMessage specMessage altTrim
  simp only [List.foldl_cons, List.foldl_nil]
  cases h1 : strAt raw "msg" with
  | some s =>
    by_cases hs : goTrim s = ""
    · cases h2 : strAt raw "message" with
      | some t => apply Normalized.ext <;> simp [*]
      | none => apply Normalized.ext <;> simp [*]
    · apply Normalized.ext <;> simp [*]
  | none =>
    cases h2 : strAt raw "message" with
    | some t => apply Normalized.ext <;> simp [*]
    | none => apply Normalized.ext <;> simp [*]

theorem setTraceID_eq (raw : RawObj) (o : Normalized) (h : o.TraceID = "") :
    setTraceID raw o = { o with TraceID := specTrace raw } := by
  unfold setTraceID specTrace altTrim
  simp only [List.foldl_cons, List.foldl_nil]
  cases h1 : strAt raw "trace_id" with
  | some s =>
    by_cases hs : goTrim s = ""
    · cases h2 : strAt raw "trace" with
      | some t => apply Normalized.ext <;> simp [*]
      | none => apply Normalized.ext <;> simp [*]
    · apply Normalized.ext <;> simp [*]
  | none =>
    cases h2 : strAt raw "trace" with
    | some t => apply Normalized.ext <;> simp [*]
    | none => apply Normalized.ext <;> simp [*]

theorem setService_eq (raw : RawObj) (o : Normalized) (h : o.Service = "") :
    setService raw o = { o with Service := specService raw } := by
  unfold setService specService altTrim
  simp only [List.foldl_cons, List.foldl_nil]
  cases h1 : strAt raw "service" with
  | some s =>
    by_cases hs : goTrim s = ""
    · cases h2 : strAt raw "app" with
      | some a =>
        by_cases ha : goTrim a = ""
        · cases h3 : strAt raw "component" with
          | some c => apply Normalized.ext <;> simp [*]
          | none => apply Normalized.ext <;> simp [*]
        · apply Normalized.ext <;> simp [*]
      | none =>
        cases h3 : strAt raw "component" with
        | some c => apply Normalized.ext <;> simp [*]
        | none => apply Normalized.ext <;> simp [*]
    · apply Normalized.ext <;> simp [*]
  | none =>
    cases h2 : strAt raw "app" with
    | some a =>
      by_cases ha : goTrim a = ""
      · cases h3 : strAt raw "component" with
        | some c => apply Normalized.ext <;> simp [*]
        | none => apply Normalized.ext <;> simp [*]
      · apply Normalized.ext <;> simp [*]
    | none =>
      cases h3 : strAt raw "component" with
      | some c => apply Normalized.ext <;> simp [*]
      | none => apply Normalized.ext <;> simp [*]

theorem setKubernetes_eq (raw : RawObj) (o : Normalized)
    (hns : o.Namespace = "") (hpd : o.Pod = "") (hnd : o.Node = "") :
    setKubernetes raw o =
      { o with Namespace := nestedStr raw "namespace_name",
               Pod := nestedStr raw "pod_name",
               Node := nestedStr raw "node_name" } := by
  unfold setKubernetes nestedStr
  cases hk : objAt raw "kubernetes" with
  | some m =>
    cases hn : strAt m "namespace_name" with
    | some a =>
      cases hp : strAt m "pod_name" with
      | some b =>
        cases hq : strAt m "node_name" with
        | some c => apply Normalized.ext <;> simp [*]
        | none => apply Normalized.ext <;> simp [*]
      | none =>
        cases hq : strAt m "node_name" with
        | some c => apply Normalized.ext <;> simp [*]
        | none => apply Normalized.ext <;> simp [*]
    | none =>
      cases hp : strAt m "pod_name" with
      | some b =>
        cases hq : strAt m "node_name" with
        | some c => apply Normalized.ext <;> simp [*]
        | none => apply Normalized.ext <;> simp [*]
      | none =>
        cases hq : strAt m "node_name" with
        | some c => apply Normalized.ext <;> simp [*]
        | none => apply Normalized.ext <;> simp [*]
  | none => apply Normalized.ext <;> simp [*]

theorem setNamespaceTop_eq (raw : RawObj) (o : Normalized)
    (h : o.Namespace = nestedStr raw "namespace_name") :
    setNamespaceTop raw o = { o with Namespace := specNamespace raw } := by
  unfold setNamespaceTop specNamespace
  cases h1 : strAt raw "namespace" with
  | some s => apply Normalized.ext <;> simp [*]
  | none => apply Normalized.ext <;> simp [*]

theorem setPodTop_eq (raw : RawObj) (o : Normalized)
    (h : o.Pod = nestedStr raw "pod_name") :
    setPodTop raw o = { o with Pod := specPod raw } := by
  unfold setPodTop specPod
  cases h1 : strAt raw "pod" with
  | some s => apply Normalized.ext <;> simp [*]
  | none => apply Normalized.ext <;> simp [*]

theorem setNodeTop_eq (raw : RawObj) (o : Normalized)
    (h : o.Node = nestedStr raw "node_name") :
    setNodeTop raw o = { o with Node := specNode raw } := by
  unfold setNodeTop specNode
  cases h1 : strAt raw "node" with
  | some s =>
    by_cases hs : goTrim s = ""
    · cases h2 : strAt raw "hostname" with
      | some t => apply Normalized.ext <;> simp [*]
      | none => apply Normalized.ext <;> simp [*]
    · apply Normalized.ext <;> simp [*]
  | none =>
    by_cases hb : nestedStr raw "node_name" = ""
    · cases h2 : strAt raw "hostname" with
      | some t => apply Normalized.ext <;> simp [*]
      | none => apply Normalized.ext <;> simp [*]
    · apply Normalized.ext <;> simp [*]

/-- The sequential extraction of `Normalize` computes exactly the per-field
selectors: the canonical fields are independent of one another. -/
theorem extract_eq (raw : RawObj) :
    extract raw =
      { TS := specTS raw, Level := specLevel raw, Service := specService raw,
        Namespace := specNamespace raw, Pod := specPod raw,
        Node := specNode raw, Message := specMessage raw,
        TraceID := specTrace raw, Fields := specFields raw } := by
  unfold extract
  rw [setTS_eq raw emptyNormalized rfl]
  rw [setLevel_eq raw _ rfl]
  rw [setMessage_eq raw _ rfl]
  rw [setService_eq raw _ rfl]
  rw [setKubernetes_eq raw _ rfl rfl rfl]
  rw [setNamespaceTop_eq raw _ rfl]
  rw [setPodTop_eq raw _ rfl]
  rw [setNodeTop_eq raw _ rfl]
  rw [setTraceID_eq raw _ rfl]
  rfl

/-- Full characterization of `Normalize` in terms of the per-field
selectors: validation order is timestamp (empty check, then parse), then
message, then level; on success the level is uppercased and the timestamp
replaced by its canonical serialization. -/
theorem Normalize_unfold (tsParse : String → Option String) (raw : RawObj) :
    Normalize tsParse raw =
      (if specTS raw = "" then .error .missingTimestamp
       else
         match tsParse (specTS raw) with
         | none => .error (.invalidTimestamp (specTS raw))
         | some t =>
           if specMessage raw = "" then .error .missingMessage
           else if specLevel raw = "" then .error .missingLevel
           else .ok { TS := t, Level := goUpper (specLevel raw),
                      Service := specService raw,
                      Namespace := specNamespace raw, Pod := specPod raw,
                      Node := specNode raw, Message := specMessage raw,
                      TraceID := specTrace raw, Fields := specFields raw }) := by
  unfold Normalize parseTimestamp
  rw [extract_eq]
  by_cases hts : specTS raw = ""
  · simp [hts]
  · simp only [hts, if_false, reduceIte]
    cases hp : tsParse (specTS raw) with
    | none => rfl
    | some t => rfl

/-- Abstract RFC3339 parser accepting exactly the canonical timestamp used
by the concrete examples (Go's `time.Parse` accepts it and re-serializes it
to itself). -/
def c5Parse : String → Option String :=
  fun s => if s = "2025-01-01T00:00:00Z" then some s else none

/-- A raw record whose `namespace`, `pod` and nested `node_name` carry
surrounding whitespace and whose `level` is lowercase with padding. -/
def c5Raw : RawObj :=
  [("ts", .str "2025-01-01T00:00:00Z"), ("level", .str " warn "),
   ("msg", .str "hi"), ("namespace", .str " ns "), ("pod", .str " p1 "),
   ("kubernetes", .obj [("node_name", .str " n1 ")])]

/-- The record `Normalize` produces for `c5Raw`. -/
def c5Rec : Normalized :=
  { TS := "2025-01-01T00:00:00Z", Level := "WARN", Service := "",
    Namespace := " ns ", Pod := " p1 ", Node := " n1 ", Message := "hi",
    TraceID := "", Fields := [] }

/-- Claim C5 is false as stated: `Normalize` keeps the whitespace of the
`namespace`, `pod` and kubernetes-nested `node_name` source values (no
trimming), and the level is uppercased rather than merely trimmed, so these
fields do not equal the trimmed selected source values. -/
theorem c5_counterexample :
    Normalize c5Parse c5Raw = .ok c5Rec ∧
    c5Rec.Pod ≠ goTrim " p1 " ∧
    c5Rec.Namespace ≠ goTrim " ns " ∧
    c5Rec.Node ≠ goTrim " n1 " ∧
    c5Rec.Level ≠ goTrim " warn " := by
  refine ⟨rfl, by decide, by decide, by decide, by decide⟩

/-- Claim C5 (amended): on success, every string field of the record is the
selected source value — trimmed for ts (before parsing), level
(subsequently uppercased), message, service, top-level node and hostname,
and trace_id, but verbatim (untrimmed) for namespace, pod, and the
kubernetes-nested namespace/pod/node values — and non-string source values
are treated as absent throughout (the selectors only accept `.str`). -/
theorem c5_normalize_fields (tsParse : String → Option String) (raw : RawObj)
    (rec : Normalized) (h : Normalize tsParse raw = .ok rec) :
    rec.Level = goUpper (specLevel raw) ∧
    rec.Message = specMessage raw ∧
    rec.Service = specService raw ∧
    rec.Namespace = specNamespace raw ∧
    rec.Pod = specPod raw ∧
    rec.Node = specNode raw ∧
    rec.TraceID = specTrace raw ∧
    specTS raw ≠ "" ∧ tsParse (specTS raw) = some rec.TS := by
  rw [Normalize_unfold] at h
  by_cases hts : specTS raw = ""
  · simp [hts] at h
  · simp only [hts, if_false, reduceIte] at h
    cases hp : tsParse (specTS raw) with
    | none => rw [hp] at h; exact absurd h (by simp)
    | some t =>
      rw [hp] at h
      by_cases hm : specMessage raw = ""
      · simp [hm] at h
      · by_cases hl : specLevel raw = ""
        · simp [hm, hl] at h
        · simp only [hm, hl, if_false, reduceIte] at h
          injection h with h2
          subst h2
          exact ⟨rfl, rfl, rfl, rfl, rfl, rfl, rfl, hts, rfl⟩

/-- Witness for the amended C5 theorem at the concrete record. -/
theorem c5_normalize_fields_witness :
    c5Rec.Level = goUpper (specLevel c5Raw) ∧
    c5Rec.Message = specMessage c5Raw ∧
    c5Rec.Service = specService c5Raw ∧
    c5Rec.Namespace = specNamespace c5Raw ∧
    c5Rec.Pod = specPod c5Raw ∧
    c5Rec.Node = specNode c5Raw ∧
    c5Rec.TraceID = specTrace c5Raw ∧
    specTS c5Raw ≠ "" ∧ c5Parse (specTS c5Raw) = some c5Rec.TS :=
  c5_normalize_fields c5Parse c5Raw c5Rec rfl

/-- Claim C6: `Normalize` fails exactly on the four conditions, checked in
the order timestamp emptiness, timestamp parse, message, level.  The
invalid-timestamp error text contains the offending value, and when no
condition fails the function succeeds. -/
theorem c6_normalize_error_order (tsParse : String → Option String)
    (raw : RawObj) :
    (specTS raw = "" → Normalize tsParse raw = .error .missingTimestamp) ∧
    (specTS raw ≠ "" → tsParse (specTS raw) = none →
      Normalize tsParse raw = .error (.invalidTimestamp (specTS raw)) ∧
      ∃ pre post,
        renderNormError (.invalidTimestamp (specTS raw)) =
          pre ++ specTS raw ++ post) ∧
    (∀ t, tsParse (specTS raw) = some t → specTS raw ≠ "" →
      specMessage raw = "" → Normalize tsParse raw = .error .missingMessage) ∧
    (∀ t, tsParse (specTS raw) = some t → specTS raw ≠ "" →
      specMessage raw ≠ "" → specLevel raw = "" →
      Normalize tsParse raw = .error .missingLevel) ∧
    (∀ t, tsParse (specTS raw) = some t → specTS raw ≠ "" →
      specMessage raw ≠ "" → specLevel raw ≠ "" →
      ∃ rec, Normalize tsParse raw = .ok rec) := by
  refine ⟨?_, ?_, ?_, ?_, ?_⟩
  · intro hts
    rw [Normalize_unfold]
    simp [hts]
  · intro hts hp
    refine ⟨?_, "invalid timestamp \"", "\": expected RFC3339", rfl⟩
    rw [Normalize_unfold]
    simp [hts, hp]
  · intro t hp hts hm
    rw [Normalize_unfold]
    simp [hts, hp, hm]
  · intro t hp hts hm hl
    rw [Normalize_unfold]
    simp [hts, hp, hm, hl]
  · intro t hp hts hm hl
    rw [Normalize_unfold]
    simp only [hts, if_false, reduceIte, hp, hm, hl]
    exact ⟨_, rfl⟩

/-- A raw record with an unparsable timestamp (mirrors the repository's own
`TestNormalizeRejectsInvalidTimestamp`). -/
def c6Raw : RawObj :=
  [("ts", .str "not-a-time"), ("level", .str "INFO"), ("msg", .str "ok"),
   ("service", .str "svc")]

/-- Witness: the invalid-timestamp branch of the C6 theorem at `c6Raw`. -/
theorem c6_normalize_error_order_witness :
    Normalize c5Parse c6Raw = .error (.invalidTimestamp (specTS c6Raw)) ∧
    ∃ pre post,
      renderNormError (.invalidTimestamp (specTS c6Raw)) =
        pre ++ specTS c6Raw ++ post :=
  (c6_normalize_error_order c5Parse c6Raw).2.1 (by decide) (by decide)

/-- `config.Config` from `src/internal/config/config.go`.  Go `int`/`int64`
fields are `Int` (no arithmetic overflow is exercised); the `float64`
jitter is a rational, of which only sign and ordering comparisons are used. -/
structure Config where
  InputPath : String
  OutputPath : String
  ReportPath : String
  OutputType : String
  OutputMaxB : Int
  OutputMaxFiles : Int
  FilterLevels : List String
  FilterSvcs : List String
  RedactKeys : List String
  Transforms : List String
  MaxWorkers : Int
  QueueSize : Int
  SinkMaxRetries : Int
  SinkBackoffBaseMS : Int
  SinkBackoffMaxMS : Int
  SinkBackoffJitter : ℚ
  DLQPath : String
  BatchSize : Int
  BatchFlushInterval : Int
  ShutdownTimeoutSeconds : Int
  LogLevel : String
  LogFormat : String

/-- The Go zero value of `config.Config`. -/
def zeroConfig : Config :=
  { InputPath := "", OutputPath := "", ReportPath := "", OutputType := "",
    OutputMaxB := 0, OutputMaxFiles := 0, FilterLevels := [],
    FilterSvcs := [], RedactKeys := [], Transforms := [], MaxWorkers := 0,
    QueueSize := 0, SinkMaxRetries := 0, SinkBackoffBaseMS := 0,
    SinkBackoffMaxMS := 0, SinkBackoffJitter := 0, DLQPath := "",
    BatchSize := 0, BatchFlushInterval := 0, ShutdownTimeoutSeconds := 0,
    LogLevel := "", LogFormat := "" }

/-- Go `strings.HasPrefix`. -/
def goStartsWith (s pre : String) : Bool := pre.data.isPrefixOf s.data

/-- One violation collected by `config.Validate`, with the offending value
(the Go code renders each as a formatted message; the constructor carries
the data of that message). -/
inductive VErr where
  | invalidOutputType (t : String)
  | outputPathRequired
  | negMaxWorkers (v : Int)
  | negQueueSize (v : Int)
  | negSinkMaxRetries (v : Int)
  | negBackoffBase (v : Int)
  | negBackoffMax (v : Int)
  | negJitter (q : ℚ)
  | negOutputMaxBytes (v : Int)
  | negOutputMaxFiles (v : Int)
  | dlqS3 (p : String)
  | dlqEmpty
  | backoffMaxLtBase (mx bs : Int)
  | jitterTooLarge (q : ℚ)
  | negBatchSize (v : Int)
  | negBatchFlushInterval (v : Int)
  | negShutdownTimeout (v : Int)
  | invalidLogLevel (s : String)
  | invalidLogFormat (s : String)
deriving DecidableEq

/-- `config.Validate`: collects every violation in source order; the Go
function returns an aggregated error exactly when the list is non-empty.
Note the recognized `output_type` set on the first check: only `stdout`,
`file`, `rotate`, `rotating` (and empty) pass. -/
def validate (cfg : Config) : List VErr :=
  (if cfg.OutputType ≠ "" ∧ cfg.OutputType ≠ "stdout" ∧
      cfg.OutputType ≠ "file" ∧ cfg.OutputType ≠ "rotate" ∧
      cfg.OutputType ≠ "rotating"
   then [.invalidOutputType cfg.OutputType] else []) ++
  (if (cfg.OutputType = "file" ∨ cfg.OutputType = "rotate" ∨
      cfg.OutputType = "rotating") ∧ cfg.OutputPath = ""
   then [.outputPathRequired] else []) ++
  (if cfg.MaxWorkers < 0 then [.negMaxWorkers cfg.MaxWorkers] else []) ++
  (if cfg.QueueSize < 0 then [.negQueueSize cfg.QueueSize] else []) ++
  (if cfg.SinkMaxRetries < 0
   then [.negSinkMaxRetries cfg.SinkMaxRetries] else []) ++
  (if cfg.SinkBackoffBaseMS < 0
   then [.negBackoffBase cfg.SinkBackoffBaseMS] else []) ++
  (if cfg.SinkBackoffMaxMS < 0
   then [.negBackoffMax cfg.SinkBackoffMaxMS] else []) ++
  (if cfg.SinkBackoffJitter < 0
   then [.negJitter cfg.SinkBackoffJitter] else []) ++
  (if cfg.OutputMaxB < 0 then [.negOutputMaxBytes cfg.OutputMaxB] else []) ++
  (if cfg.OutputMaxFiles < 0
   then [.negOutputMaxFiles cfg.OutputMaxFiles] else []) ++
  (if cfg.DLQPath ≠ "" ∧ goStartsWith cfg.DLQPath "s3://"
   then [.dlqS3 cfg.DLQPath] else []) ++
  (if cfg.DLQPath ≠ "" ∧ goTrim cfg.DLQPath = ""
   then [.dlqEmpty] else []) ++
  (if cfg.SinkBackoffMaxMS > 0 ∧ cfg.SinkBackoffBaseMS > 0 ∧
      cfg.SinkBackoffMaxMS < cfg.SinkBackoffBaseMS
   then [.backoffMaxLtBase cfg.SinkBackoffMaxMS cfg.SinkBackoffBaseMS]
   else []) ++
  (if cfg.SinkBackoffJitter > 1
   then [.jitterTooLarge cfg.SinkBackoffJitter] else []) ++
  (if cfg.BatchSize < 0 then [.negBatchSize cfg.BatchSize] else []) ++
  (if cfg.BatchFlushInterval < 0
   then [.negBatchFlushInterval cfg.BatchFlushInterval] else []) ++
  (if cfg.ShutdownTimeoutSeconds < 0
   then [.negShutdownTimeout cfg.ShutdownTimeoutSeconds] else []) ++
  (if cfg.LogLevel ≠ "" ∧
      ¬(["debug", "info", "warn", "error"].contains (goLower cfg.LogLevel))
   then [.invalidLogLevel cfg.LogLevel] else []) ++
  (if cfg.LogFormat ≠ "" ∧
      ¬(["json", "text"].contains (goLower cfg.LogFormat))
   then [.invalidLogFormat cfg.LogFormat] else [])

/-- The sink variant chosen by `sink.Build` (`src/internal/sink/builder.go`). -/
inductive SinkKind where
  | stdout
  | file
  | rotate
  | http
deriving DecidableEq

/-- The dispatch of `sink.Build` on the lowercased output type (startup
side effects such as opening files are not modelled; the `Except` carries
the error text of the failing branches). -/
def buildSinkKind (cfg : Config) : Except String SinkKind :=
  match goLower cfg.OutputType with
  | "" | "stdout" => .ok .stdout
  | "file" =>
    if cfg.OutputPath = "" then
      .error "open sink: output path required for file sink"
    else .ok .file
  | "rotate" | "rotating" =>
    if cfg.OutputPath = "" then
      .error "open sink: output path required for rotating sink"
    else .ok .rotate
  | "http" | "webhook" =>
    if cfg.OutputPath = "" then
      .error "open sink: output URL required for http sink"
    else .ok .http
  | "s3" => .error "open sink: S3 sink not yet implemented (requires AWS SDK)"
  | "kafka" =>
    .error "open sink: Kafka sink not yet implemented (requires Kafka client library)"
  | _ => .error ("open sink: unknown output type \"" ++ cfg.OutputType ++ "\"")

/-- An otherwise-valid configuration asking for the HTTP sink. -/
def httpCfg : Config :=
  { zeroConfig with OutputType := "http",
                    OutputPath := "http://example.com/logs" }

/-- The same configuration with the `webhook` alias. -/
def webhookCfg : Config :=
  { zeroConfig with OutputType := "webhook",
                    OutputPath := "http://example.com/logs" }

/-- Claim C1: `config.Validate` rejects `output_type` `http` and `webhook`
as invalid even though `sink.Build` supports them (and the repository
README documents them), so the pipeline never reaches the HTTP sink: the
validation recognized set omits the HTTP aliases. -/
theorem c1_validate_rejects_http :
    validate httpCfg = [.invalidOutputType "http"] ∧
    validate webhookCfg = [.invalidOutputType "webhook"] ∧
    buildSinkKind httpCfg = .ok .http ∧
    buildSinkKind webhookCfg = .ok .http := by
  refine ⟨by decide, by decide, rfl, rfl⟩

/-- Worker-count computation of `runPipeline` (`src/cmd/etl/main.go`):
`workerCount := cfg.MaxWorkers; if workerCount <= 0 { workerCount = 1 }`. -/
def pipelineWorkerCount (cfg : Config) : Int :=
  let wc := cfg.MaxWorkers
  if wc ≤ 0 then 1 else wc

/-- Queue-capacity computation of `runPipeline`:
`queueSize := cfg.QueueSize; if queueSize <= 0 { queueSize = 128 }`;
the work channel is then `make(chan workItem, queueSize)`. -/
def pipelineQueueSize (cfg : Config) : Int :=
  let qs := cfg.QueueSize
  if qs ≤ 0 then 128 else qs

/-- Claim C2 is false as stated: for `queue_size = 5` (strictly between 0
and 128) the channel capacity is 5, not `max(queue_size, 128) = 128`. -/
theorem c2_counterexample :
    pipelineQueueSize { zeroConfig with QueueSize := 5 } = 5 ∧
    max (5 : Int) 128 = 128 ∧ (5 : Int) ≠ 128 := by
  refine ⟨rfl, by decide, by decide⟩

/-- Claim C2 (amended): the worker count is `max(max_workers, 1)`, but the
channel capacity is `queue_size` itself whenever it is positive; the
default 128 applies only when `queue_size ≤ 0`. -/
theorem c2_workers_and_queue (cfg : Config) :
    pipelineWorkerCount cfg = max cfg.MaxWorkers 1 ∧
    (0 < cfg.QueueSize → pipelineQueueSize cfg = cfg.QueueSize) ∧
    (cfg.QueueSize ≤ 0 → pipelineQueueSize cfg = 128) := by
  unfold pipelineWorkerCount pipelineQueueSize
  refine ⟨?_, fun h => ?_, fun h => ?_⟩
  · by_cases h : cfg.MaxWorkers ≤ 0 <;> simp [h] <;> omega
  · simp [show ¬cfg.QueueSize ≤ 0 by omega]
  · simp [h]

/-- Witness for the amended C2 theorem at a concrete configuration. -/
theorem c2_workers_and_queue_witness :
    pipelineWorkerCount { zeroConfig with MaxWorkers := 3, QueueSize := 7 } =
      max 3 1 ∧
    pipelineQueueSize { zeroConfig with MaxWorkers := 3, QueueSize := 7 } = 7 :=
  ⟨(c2_workers_and_queue _).1,
   (c2_workers_and_queue _).2.1 (by decide)⟩

/-- `report.Report` from `src/internal/report/report.go`: the counters,
per-key maps and retry statistics that the proved claims touch.  Durations,
derived rates and serialization are omitted (real time and floats). -/
structure Report where
  TotalLines : Nat
  JSONFailed : Nat
  JSONParsed : Nat
  NormalizedOK : Nat
  NormalizedFailed : Nat
  WrittenOK : Nat
  WriteFailed : Nat
  ByLevel : String → Nat
  ByService : String → Nat
  FilteredLevel : Nat
  FilteredService : Nat
  FilteredOther : Nat
  DLQWritten : Nat
  DLQReasons : String → Nat
  TotalRetries : Nat
  WritesWithRetries : Nat
  MaxRetriesPerWrite : Nat

/-- `report.NewReport`. -/
def newReport : Report :=
  { TotalLines := 0, JSONFailed := 0, JSONParsed := 0, NormalizedOK := 0,
    NormalizedFailed := 0, WrittenOK := 0, WriteFailed := 0,
    ByLevel := fun _ => 0, ByService := fun _ => 0, FilteredLevel := 0,
    FilteredService := 0, FilteredOther := 0, DLQWritten := 0,
    DLQReasons := fun _ => 0, TotalRetries := 0, WritesWithRetries := 0,
    MaxRetriesPerWrite := 0 }

/-- `Report.AddLevel` (skips the empty key). -/
def Report.addLevel (r : Report) (level : String) : Report :=
  if level = "" then r
  else { r with ByLevel := fun s =>
           if s = level then r.ByLevel s + 1 else r.ByLevel s }

/-- `Report.AddService` (skips the empty key). -/
def Report.addService (r : Report) (service : String) : Report :=
  if service = "" then r
  else { r with ByService := fun s =>
           if s = service then r.ByService s + 1 else r.ByService s }

/-- `Report.AddFiltered`: a known reason goes to its bucket, everything
else to `other`. -/
def Report.addFiltered (r : Report) (reason : String) : Report :=
  if reason = "level" then { r with FilteredLevel := r.FilteredLevel + 1 }
  else if reason = "service" then
    { r with FilteredService := r.FilteredService + 1 }
  else { r with FilteredOther := r.FilteredOther + 1 }

/-- `Report.AddWriteOK`. -/
def Report.addWriteOK (r : Report) : Report :=
  { r with WrittenOK := r.WrittenOK + 1 }

/-- `Report.AddWriteFailed`. -/
def Report.addWriteFailed (r : Report) : Report :=
  { r with WriteFailed := r.WriteFailed + 1 }

/-- `Report.AddDLQWithReason`: increments `dlq_written` and the reason
tally, mapping the empty reason to `"unknown"`. -/
def Report.addDLQWithReason (r : Report) (reason : String) : Report :=
  let r1 := { r with DLQWritten := r.DLQWritten + 1 }
  let key := if reason = "" then "unknown" else reason
  { r1 with DLQReasons := fun s =>
      if s = key then r1.DLQReasons s + 1 else r1.DLQReasons s }

/-- `Report.AddRetry`: adds to `total_retries`; at most one
`writes_with_retries` increment per call; tracks the maximum. -/
def Report.addRetry (r : Report) (retries : Nat) : Report :=
  let r1 := { r with TotalRetries := r.TotalRetries + retries }
  if retries > 0 then
    { r1 with WritesWithRetries := r1.WritesWithRetries + 1,
              MaxRetriesPerWrite :=
                if retries > r1.MaxRetriesPerWrite then retries
                else r1.MaxRetriesPerWrite }
  else r1

/-- `writeWithRetry` clamp: `if maxRetries < 0 { maxRetries = 0 }`. -/
def effMaxRetries (cfg : Config) : Int :=
  if cfg.SinkMaxRetries < 0 then 0 else cfg.SinkMaxRetries

/-- `writeWithRetry` default: `if base <= 0 { base = 100ms }` (in ms). -/
def effBackoffBaseMS (cfg : Config) : Int :=
  if cfg.SinkBackoffBaseMS ≤ 0 then 100 else cfg.SinkBackoffBaseMS

/-- `writeWithRetry` default: `if max <= 0 { max = 2s }` (in ms). -/
def effBackoffMaxMS (cfg : Config) : Int :=
  if cfg.SinkBackoffMaxMS ≤ 0 then 2000 else cfg.SinkBackoffMaxMS

/-- `writeWithRetry` default: `if jitterPct <= 0 { jitterPct = 0.2 }`. -/
def effJitterPct (cfg : Config) : ℚ :=
  if cfg.SinkBackoffJitter ≤ 0 then 1 / 5 else cfg.SinkBackoffJitter

/-- The retry loop of `writeWithRetry` (`src/cmd/etl/main.go`), without
cancellation (the claim assumes none fires): `write` gives the outcome of
each attempt by index; `remaining = maxRetries - attempt` counts the
attempts still allowed, so `remaining = 0` is the `attempt == maxRetries`
break.  The backoff waits only delay execution and are not observable
here. -/
def wwrGo (write : Nat → Option E) (attempt remaining retries : Nat) :
    Nat × Option E :=
  match write attempt with
  | none => (retries, none)
  | some e =>
    match remaining with
    | 0 => (retries, some e)
    | r + 1 => wwrGo write (attempt + 1) r (retries + 1)

/-- `writeWithRetry`: runs the loop and registers retries with the report
exactly once (both the success path and the exhaustion path call
`AddRetry` only when `retries > 0`). -/
def writeWithRetry (write : Nat → Option E) (cfg : Config) (rep : Report) :
    Nat × Option E × Report :=
  let res := wwrGo write 0 (effMaxRetries cfg).toNat 0
  let rep := if res.1 > 0 then rep.addRetry res.1 else rep
  (res.1, res.2, rep)

/-- A sink that fails its first `k` write attempts and then succeeds. -/
def failsK (k : Nat) (e : E) : Nat → Option E :=
  fun i => if i < k then some e else none

theorem wwrGo_failsK (k : Nat) (e : E) :
    ∀ (d attempt remaining retries : Nat), attempt + d = k → d ≤ remaining →
      wwrGo (failsK k e) attempt remaining retries = (retries + d, none) := by
  intro d
  induction d with
  | zero =>
    intro attempt remaining retries hk _
    unfold wwrGo failsK
    simp [show ¬attempt < k by omega]
  | succ n ih =>
    intro attempt remaining retries hk hr
    have hw : failsK k e attempt = some e := by
      unfold failsK
      simp [show attempt < k by omega]
    cases remaining with
    | zero => exact absurd hr (by omega)
    | succ r =>
      have hrec := ih (attempt + 1) r (retries + 1) (by omega) (by omega)
      rw [wwrGo, hw]
      dsimp only
      rw [hrec]
      have h3 : retries + 1 + n = retries + (n + 1) := by omega
      rw [h3]

/-- Claim C4: under a sink failing exactly `k` attempts then succeeding,
with `k` within the (clamped) retry budget and no cancellation,
`writeWithRetry` returns success with exactly `k` retries and registers
them through a single `AddRetry` call (one `writes_with_retries` increment
when `k > 0`); and the non-positive backoff values default to base 100ms,
max 2s, jitter 0.2, while a negative `max_retries` is clamped to 0. -/
theorem c4_retry_coordinator {E : Type} (cfg : Config) (k : Nat) (e : E)
    (rep : Report) (hk : (k : Int) ≤ effMaxRetries cfg) :
    (writeWithRetry (failsK k e) cfg rep).1 = k ∧
    (writeWithRetry (failsK k e) cfg rep).2.1 = none ∧
    (writeWithRetry (failsK k e) cfg rep).2.2.TotalRetries =
      rep.TotalRetries + k ∧
    (writeWithRetry (failsK k e) cfg rep).2.2.WritesWithRetries =
      rep.WritesWithRetries + (if k = 0 then 0 else 1) ∧
    (writeWithRetry (failsK k e) cfg rep).2.2.MaxRetriesPerWrite =
      (if rep.MaxRetriesPerWrite < k then k else rep.MaxRetriesPerWrite) ∧
    (cfg.SinkMaxRetries < 0 → effMaxRetries cfg = 0) ∧
    (cfg.SinkBackoffBaseMS ≤ 0 → effBackoffBaseMS cfg = 100) ∧
    (cfg.SinkBackoffMaxMS ≤ 0 → effBackoffMaxMS cfg = 2000) ∧
    (cfg.SinkBackoffJitter ≤ 0 → effJitterPct cfg = 1 / 5) := by
  have heff : (0 : Int) ≤ effMaxRetries cfg := by
    unfold effMaxRetries
    split <;> omega
  have hres : wwrGo (failsK k e) 0 (effMaxRetries cfg).toNat 0 = (k, none) := by
    have := wwrGo_failsK k e k 0 (effMaxRetries cfg).toNat 0 (by omega)
      (by omega)
    simpa using this
  unfold writeWithRetry
  rw [hres]
  dsimp only
  refine ⟨rfl, rfl, ?_, ?_, ?_, ?_, ?_, ?_, ?_⟩
  · by_cases hk0 : k = 0
    · simp [hk0]
    · simp [Report.addRetry, Nat.pos_of_ne_zero hk0]
  · by_cases hk0 : k = 0
    · simp [hk0]
    · simp [Report.addRetry, Nat.pos_of_ne_zero hk0, hk0]
  · by_cases hk0 : k = 0
    · simp [hk0]
    · by_cases hm : rep.MaxRetriesPerWrite < k
      · simp [Report.addRetry, Nat.pos_of_ne_zero hk0, hm]
      · simp [Report.addRetry, Nat.pos_of_ne_zero hk0, hm]
  · intro h; unfold effMaxRetries; simp [h]
  · intro h; unfold effBackoffBaseMS; simp [h]
  · intro h; unfold effBackoffMaxMS; simp [h]
  · intro h; unfold effJitterPct; simp [h]

/-- A configuration with a retry budget of 3. -/
def c4Cfg : Config := { zeroConfig with SinkMaxRetries := 3 }

/-- Witness: the C4 theorem at `k = 2` failures within budget 3. -/
theorem c4_retry_coordinator_witness :
    (writeWithRetry (failsK 2 "boom") c4Cfg newReport).1 = 2 ∧
    (writeWithRetry (failsK 2 "boom") c4Cfg newReport).2.1 = none ∧
    (writeWithRetry (failsK 2 "boom") c4Cfg newReport).2.2.TotalRetries =
      newReport.TotalRetries + 2 ∧
    (writeWithRetry (failsK 2 "boom") c4Cfg newReport).2.2.WritesWithRetries =
      newReport.WritesWithRetries + (if 2 = 0 then 0 else 1) ∧
    (writeWithRetry (failsK 2 "boom") c4Cfg newReport).2.2.MaxRetriesPerWrite =
      (if newReport.MaxRetriesPerWrite < 2 then 2
       else newReport.MaxRetriesPerWrite) ∧
    (c4Cfg.SinkMaxRetries < 0 → effMaxRetries c4Cfg = 0) ∧
    (c4Cfg.SinkBackoffBaseMS ≤ 0 → effBackoffBaseMS c4Cfg = 100) ∧
    (c4Cfg.SinkBackoffMaxMS ≤ 0 → effBackoffMaxMS c4Cfg = 2000) ∧
    (c4Cfg.SinkBackoffJitter ≤ 0 → effJitterPct c4Cfg = 1 / 5) :=
  c4_retry_coordinator c4Cfg 2 "boom" newReport (by decide)

/-- The terminal-write-failure branch of the worker loop in `runPipeline`
(`src/cmd/etl/main.go`): `written_failed` is incremented, then, when a DLQ
is configured, the DLQ envelope write is attempted — its error is only
logged — and `AddDLQWithReason` runs unconditionally afterwards. -/
def handleWriteFailure (dlqConfigured : Bool) (dlqWriteErr : Option String)
    (reason : String) (rep : Report) : Report :=
  let rep := rep.addWriteFailed
  if dlqConfigured then
    let _ := dlqWriteErr
    rep.addDLQWithReason reason
  else rep

/-- Claim C10: with a DLQ configured, `dlq_written` and the reason tally
are incremented on every retry exhaustion regardless of whether the DLQ
write itself errored — the counter counts attempts, not successful DLQ
writes. -/
theorem c10_dlq_counts_attempts (dlqWriteErr : Option String)
    (reason : String) (rep : Report) :
    (handleWriteFailure true dlqWriteErr reason rep).DLQWritten =
      rep.DLQWritten + 1 ∧
    (handleWriteFailure true dlqWriteErr reason rep).DLQReasons
        (if reason = "" then "unknown" else reason) =
      rep.DLQReasons (if reason = "" then "unknown" else reason) + 1 ∧
    (handleWriteFailure true dlqWriteErr reason rep).WriteFailed =
      rep.WriteFailed + 1 ∧
    handleWriteFailure true (some "dlq write failed") reason rep =
      handleWriteFailure true none reason rep := by
  refine ⟨?_, ?_, ?_, rfl⟩
  · simp [handleWriteFailure, Report.addDLQWithReason, Report.addWriteFailed]
  · by_cases hr : reason = "" <;>
      simp [handleWriteFailure, Report.addDLQWithReason,
        Report.addWriteFailed, hr]
  · simp [handleWriteFailure, Report.addDLQWithReason, Report.addWriteFailed]

/-- `stages.FilterStage` (`src/internal/stages/filter.go`): the three sets,
modelled as the lists produced by the build helpers (Go map semantics:
only membership and emptiness are used, so duplicates are irrelevant). -/
structure FilterStage where
  levels : List String
  services : List String
  redact : List String

/-- `buildUpperSet`: skips empty values, uppercases the rest. -/
def buildUpperSet (values : List String) : List String :=
  (values.filter (fun v => v ≠ "")).map goUpper

/-- `buildLowerSet`: skips empty values, lowercases the rest. -/
def buildLowerSet (values : List String) : List String :=
  (values.filter (fun v => v ≠ "")).map goLower

/-- `buildExactSet`: skips empty values, keeps the rest verbatim. -/
def buildExactSet (values : List String) : List String :=
  values.filter (fun v => v ≠ "")

/-- `containsUpper`: membership of the uppercased probe. -/
def containsUpper (set : List String) (v : String) : Bool :=
  set.contains (goUpper v)

/-- `containsLower`: membership of the lowercased probe. -/
def containsLower (set : List String) (v : String) : Bool :=
  set.contains (goLower v)

/-- `stages.NewFilterStage`. -/
def NewFilterStage (cfg : Config) : FilterStage :=
  { levels := buildUpperSet cfg.FilterLevels,
    services := buildLowerSet cfg.FilterSvcs,
    redact := buildExactSet cfg.RedactKeys }

/-- `FilterStage.Apply` as it stands in `src/internal/stages/filter.go`
(single `Bool` result; mutation of `Fields` is modelled by returning the
updated record). -/
def FilterStage.applyGo (f : FilterStage) (n : Normalized) :
    Bool × Normalized :=
  if 0 < f.levels.length ∧ ¬containsUpper f.levels n.Level then (false, n)
  else if 0 < f.services.length ∧ ¬containsLower f.services n.Service then
    (false, n)
  else
    let n1 :=
      if 0 < f.redact.length ∧ 0 < n.Fields.length then
        { n with Fields := n.Fields.filter (fun kv => !(f.redact.contains kv.1)) }
      else n
    (true, n1)

/-- Modelled from the spec: the two-value `FilterStage.Apply` returning
`(ok, reason)` that `plugins/registry.go`'s `filter_redact` factory calls
(`if ok, reason := fs.Apply(&n); !ok`); `src/internal/stages/filter.go`
only carries an older variant returning a single `Bool`.  Spec section 4.2:
the level allowlist is checked first (drop reason "level"), then the
service allowlist (reason "service"); redaction deletes the matched keys
only when both allowlists pass. -/
def FilterStage.applyReason (f : FilterStage) (n : Normalized) :
    Bool × String × Normalized :=
  if 0 < f.levels.length ∧ ¬containsUpper f.levels n.Level then
    (false, "level", n)
  else if 0 < f.services.length ∧ ¬containsLower f.services n.Service then
    (false, "service", n)
  else
    let n1 :=
      if 0 < f.redact.length ∧ 0 < n.Fields.length then
        { n with Fields := n.Fields.filter (fun kv => !(f.redact.contains kv.1)) }
      else n
    (true, "", n1)

/-- The `filter_redact` transform registered in `plugins/registry.go`: a
drop returns the untouched record with `dropped = true` and the reason; a
pass returns the (possibly redacted) record; the error is always nil. -/
def filterRedact (cfg : Config) (n : Normalized) :
    Normalized × Bool × String × Option String :=
  let fs := NewFilterStage cfg
  match fs.applyReason n with
  | (false, reason, n1) => (n1, true, reason, none)
  | (true, _, n1) => (n1, false, "", none)

/-- Spec-side predicate: the allowlist is effectively empty (every entry is
the empty string, which the build helpers skip). -/
def allowlistEmpty (allow : List String) : Prop :=
  allow.filter (fun v => v ≠ "") = []

/-- Spec-side predicate: some non-empty allowlist entry matches `v` up to
the case-folding function `fold`. -/
def allowMatches (allow : List String) (fold : String → String) (v : String) :
    Prop :=
  ∃ a ∈ allow, a ≠ "" ∧ fold a = fold v

/-- Spec-side pass condition on levels (case-insensitive via uppercase). -/
def levelPasses (cfg : Config) (n : Normalized) : Prop :=
  allowlistEmpty cfg.FilterLevels ∨ allowMatches cfg.FilterLevels goUpper n.Level

/-- Spec-side pass condition on services (case-insensitive via lowercase). -/
def servicePasses (cfg : Config) (n : Normalized) : Prop :=
  allowlistEmpty cfg.FilterSvcs ∨ allowMatches cfg.FilterSvcs goLower n.Service

theorem buildUpperSet_empty_iff (ls : List String) :
    (buildUpperSet ls).length = 0 ↔ allowlistEmpty ls := by
  simp [buildUpperSet, allowlistEmpty, List.length_eq_zero]

theorem buildLowerSet_empty_iff (ls : List String) :
    (buildLowerSet ls).length = 0 ↔ allowlistEmpty ls := by
  simp [buildLowerSet, allowlistEmpty, List.length_eq_zero]

theorem mem_buildUpperSet (ls : List String) (x : String) :
    x ∈ buildUpperSet ls ↔ ∃ a ∈ ls, a ≠ "" ∧ goUpper a = x := by
  simp [buildUpperSet, List.mem_filter, and_assoc]

theorem mem_buildLowerSet (ls : List String) (x : String) :
    x ∈ buildLowerSet ls ↔ ∃ a ∈ ls, a ≠ "" ∧ goLower a = x := by
  simp [buildLowerSet, List.mem_filter, and_assoc]

theorem containsUpper_build_iff (ls : List String) (v : String) :
    containsUpper (buildUpperSet ls) v = true ↔ allowMatches ls goUpper v := by
  have h := mem_buildUpperSet ls (goUpper v)
  simp only [containsUpper, allowMatches]
  simpa using h

theorem containsLower_build_iff (ls : List String) (v : String) :
    containsLower (buildLowerSet ls) v = true ↔ allowMatches ls goLower v := by
  have h := mem_buildLowerSet ls (goLower v)
  simp only [containsLower, allowMatches]
  simpa using h

theorem levelCond_iff (cfg : Config) (n : Normalized) :
    (0 < (NewFilterStage cfg).levels.length ∧
      ¬containsUpper (NewFilterStage cfg).levels n.Level = true) ↔
    ¬levelPasses cfg n := by
  unfold NewFilterStage levelPasses
  dsimp only
  constructor
  · rintro ⟨hlen, hc⟩ (he | hm)
    · have := (buildUpperSet_empty_iff cfg.FilterLevels).mpr he
      omega
    · exact hc ((containsUpper_build_iff _ _).mpr hm)
  · intro hnp
    refine ⟨?_, ?_⟩
    · rcases Nat.eq_zero_or_pos (buildUpperSet cfg.FilterLevels).length with h0 | hpos
      · exact absurd (Or.inl ((buildUpperSet_empty_iff _).mp h0)) hnp
      · exact hpos
    · intro hc
      exact hnp (Or.inr ((containsUpper_build_iff _ _).mp hc))

theorem serviceCond_iff (cfg : Config) (n : Normalized) :
    (0 < (NewFilterStage cfg).services.length ∧
      ¬containsLower (NewFilterStage cfg).services n.Service = true) ↔
    ¬servicePasses cfg n := by
  unfold NewFilterStage servicePasses
  dsimp only
  constructor
  · rintro ⟨hlen, hc⟩ (he | hm)
    · have := (buildLowerSet_empty_iff cfg.FilterSvcs).mpr he
      omega
    · exact hc ((containsLower_build_iff _ _).mpr hm)
  · intro hnp
    refine ⟨?_, ?_⟩
    · rcases Nat.eq_zero_or_pos (buildLowerSet cfg.FilterSvcs).length with h0 | hpos
      · exact absurd (Or.inl ((buildLowerSet_empty_iff _).mp h0)) hnp
      · exact hpos
    · intro hc
      exact hnp (Or.inr ((containsLower_build_iff _ _).mp hc))

theorem redact_filter_eq (cfg : Config) (n : Normalized) :
    n.Fields.filter
        (fun kv => !((NewFilterStage cfg).redact.contains kv.1)) =
      n.Fields.filter
        (fun kv => !(kv.1 != "" && cfg.RedactKeys.contains kv.1)) := by
  refine List.filter_congr ?_
  intro kv _
  by_cases hk : kv.1 = ""
  · simp [NewFilterStage, buildExactSet, hk, List.mem_filter]
  · simp [NewFilterStage, buildExactSet, hk, List.mem_filter]

theorem redact_noop_of_empty (cfg : Config) (n : Normalized)
    (hempty : buildExactSet cfg.RedactKeys = []) :
    n.Fields.filter
        (fun kv => !(kv.1 != "" && cfg.RedactKeys.contains kv.1)) =
      n.Fields := by
  refine List.filter_eq_self.mpr ?_
  intro kv _
  cases hb : (kv.1 != "" && cfg.RedactKeys.contains kv.1) with
  | false => simp only [hb, Bool.not_false]
  | true =>
    simp only [Bool.and_eq_true, bne_iff_ne] at hb
    have hmem : kv.1 ∈ buildExactSet cfg.RedactKeys := by
      simp only [buildExactSet, List.mem_filter]
      exact ⟨by simpa using hb.2, by simpa using hb.1⟩
    rw [hempty] at hmem
    simp at hmem

/-- Claim C7 (over the spec-modelled two-value `Apply`): `filter_redact`
never errors; the record passes exactly when both allowlists accept it
(case-insensitively, an empty allowlist meaning allow-all); the level
check comes first and fixes the drop reason; a dropped record's fields are
untouched; a passing record's fields lose exactly the configured
redaction keys. -/
theorem c7_filter_redact_contract (cfg : Config) (n : Normalized) :
    (filterRedact cfg n).2.2.2 = none ∧
    ((filterRedact cfg n).2.1 = false ↔
      (levelPasses cfg n ∧ servicePasses cfg n)) ∧
    (¬levelPasses cfg n →
      (filterRedact cfg n).2.2.1 = "level" ∧
      (filterRedact cfg n).1.Fields = n.Fields) ∧
    (levelPasses cfg n → ¬servicePasses cfg n →
      (filterRedact cfg n).2.2.1 = "service" ∧
      (filterRedact cfg n).1.Fields = n.Fields) ∧
    (levelPasses cfg n → servicePasses cfg n →
      (filterRedact cfg n).1.Fields =
        n.Fields.filter
          (fun kv => !(kv.1 != "" && cfg.RedactKeys.contains kv.1))) := by
  unfold filterRedact FilterStage.applyReason
  dsimp only
  by_cases hl : levelPasses cfg n
  · by_cases hs : servicePasses cfg n
    · rw [if_neg (fun hc => ((levelCond_iff cfg n).mp hc) hl),
        if_neg (fun hc => ((serviceCond_iff cfg n).mp hc) hs)]
      by_cases hr : 0 < (NewFilterStage cfg).redact.length ∧
          0 < n.Fields.length
      · rw [if_pos hr]
        exact ⟨rfl, by simp [hl, hs], fun h => absurd hl h,
          fun _ h => absurd hs h, fun _ _ => redact_filter_eq cfg n⟩
      · rw [if_neg hr]
        refine ⟨rfl, by simp [hl, hs], fun h => absurd hl h,
          fun _ h => absurd hs h, fun _ _ => ?_⟩
        rcases Decidable.not_and_iff_or_not.mp hr with h0 | h0
        · have hempty : buildExactSet cfg.RedactKeys = [] := by
            have : (buildExactSet cfg.RedactKeys).length = 0 := by
              have := h0
              simp only [NewFilterStage] at this
              omega
            simpa [List.length_eq_zero] using this
          exact (redact_noop_of_empty cfg n hempty).symm
        · have hf : n.Fields = [] := by
            have : n.Fields.length = 0 := by omega
            simpa [List.length_eq_zero] using this
          simp [hf]
    · rw [if_neg (fun hc => ((levelCond_iff cfg n).mp hc) hl),
        if_pos ((serviceCond_iff cfg n).mpr hs)]
      exact ⟨rfl, by simp [hs], fun h => absurd hl h,
        fun _ _ => ⟨rfl, rfl⟩, fun _ hs2 => absurd hs2 hs⟩
  · rw [if_pos ((levelCond_iff cfg n).mpr hl)]
    exact ⟨rfl, by simp [hl], fun _ => ⟨rfl, rfl⟩,
      fun hl2 _ => absurd hl2 hl, fun hl2 _ => absurd hl2 hl⟩

/-- The filter configuration of the repository's own filter tests. -/
def c7Cfg : Config :=
  { zeroConfig with FilterLevels := ["WARN", "ERROR"],
                    RedactKeys := ["user_email", "token"] }

/-- A lowercase-`warn` record carrying redactable fields. -/
def c7Rec : Normalized :=
  { emptyNormalized with
      Level := "warn",
      Fields := [("user_email", .str "a"), ("token", .str "b"),
                 ("keep", .str "ok")] }

/-- Witness: the C7 theorem's redaction branch at a passing record. -/
theorem c7_filter_redact_contract_witness :
    (filterRedact c7Cfg c7Rec).1.Fields =
      c7Rec.Fields.filter
        (fun kv => !(kv.1 != "" && c7Cfg.RedactKeys.contains kv.1)) :=
  (c7_filter_redact_contract c7Cfg c7Rec).2.2.2.2
    (by unfold levelPasses allowMatches allowlistEmpty; decide)
    (by unfold servicePasses allowMatches allowlistEmpty; decide)

/-- A transform as registered in `plugins/registry.go`. -/
abbrev Transform := Normalized → Normalized × Bool × String × Option String

/-- Producer-side state: the report plus the records sent to the channel. -/
structure PipeState where
  rep : Report
  queued : List Normalized

/-- The transform sub-loop of the producer (`runPipeline`, main.go): a
transform error counts as a normalization failure and skips the record; a
drop registers the filtered reason and skips; otherwise the possibly
mutated record continues. -/
def runTransforms : List Transform → Normalized → Report →
    Report × Option Normalized
  | [], n, rep => (rep, some n)
  | tf :: rest, n, rep =>
    match tf n with
    | (nn, drop, reason, err) =>
      match err with
      | some _ =>
        ({ rep with NormalizedFailed := rep.NormalizedFailed + 1 }, none)
      | none =>
        if drop then (rep.addFiltered reason, none)
        else runTransforms rest nn rep

/-- One iteration of the producer loop (`runPipeline`, main.go lines
340-414): skip blank lines without counting; count the line; JSON-decode
(`jsonParse` abstracts `encoding/json.Unmarshal`); normalize; tally level
and service; run the transforms; enqueue survivors. -/
def processLine (jsonParse : String → Option RawObj)
    (tsParse : String → Option String) (tfs : List Transform)
    (st : PipeState) (line : String) : PipeState :=
  if goTrim line = "" then st
  else
    let rep := { st.rep with TotalLines := st.rep.TotalLines + 1 }
    match jsonParse line with
    | none => { st with rep := { rep with JSONFailed := rep.JSONFailed + 1 } }
    | some js =>
      let rep := { rep with JSONParsed := rep.JSONParsed + 1 }
      match Normalize tsParse js with
      | .error _ =>
        { st with
            rep := { rep with NormalizedFailed := rep.NormalizedFailed + 1 } }
      | .ok n =>
        let rep := { rep with NormalizedOK := rep.NormalizedOK + 1 }
        let rep := rep.addLevel n.Level
        let rep := rep.addService n.Service
        match runTransforms tfs n rep with
        | (rep2, none) => { st with rep := rep2 }
        | (rep2, some n2) => { rep := rep2, queued := st.queued ++ [n2] }

/-- The producer loop run to completion over the input lines. -/
def produceLoop (jsonParse : String → Option RawObj)
    (tsParse : String → Option String) (tfs : List Transform)
    (lines : List String) : PipeState :=
  lines.foldl (processLine jsonParse tsParse tfs) ⟨newReport, []⟩

@[simp] theorem addLevel_JSONParsed (r : Report) (lvl : String) :
    (r.addLevel lvl).JSONParsed = r.JSONParsed := by
  unfold Report.addLevel; split <;> rfl

@[simp] theorem addLevel_JSONFailed (r : Report) (lvl : String) :
    (r.addLevel lvl).JSONFailed = r.JSONFailed := by
  unfold Report.addLevel; split <;> rfl

@[simp] theorem addLevel_TotalLines (r : Report) (lvl : String) :
    (r.addLevel lvl).TotalLines = r.TotalLines := by
  unfold Report.addLevel; split <;> rfl

@[simp] theorem addService_JSONParsed (r : Report) (sv : String) :
    (r.addService sv).JSONParsed = r.JSONParsed := by
  unfold Report.addService; split <;> rfl

@[simp] theorem addService_JSONFailed (r : Report) (sv : String) :
    (r.addService sv).JSONFailed = r.JSONFailed := by
  unfold Report.addService; split <;> rfl

@[simp] theorem addService_TotalLines (r : Report) (sv : String) :
    (r.addService sv).TotalLines = r.TotalLines := by
  unfold Report.addService; split <;> rfl

theorem addFiltered_jsonCounters (r : Report) (reason : String) :
    (r.addFiltered reason).JSONParsed = r.JSONParsed ∧
    (r.addFiltered reason).JSONFailed = r.JSONFailed ∧
    (r.addFiltered reason).TotalLines = r.TotalLines := by
  unfold Report.addFiltered
  split
  · exact ⟨rfl, rfl, rfl⟩
  · split <;> exact ⟨rfl, rfl, rfl⟩

@[simp] theorem runTransforms_JSONParsed (tfs : List Transform)
    (n : Normalized) (rep : Report) :
    (runTransforms tfs n rep).1.JSONParsed = rep.JSONParsed := by
  induction tfs generalizing n rep with
  | nil => rfl
  | cons tf rest ih =>
    unfold runTransforms
    rcases htf : tf n with ⟨nn, drop, reason, err⟩
    cases err with
    | some e => rfl
    | none =>
      by_cases hd : drop
      · simp only [hd, reduceIte]
        exact (addFiltered_jsonCounters rep reason).1
      · simp only [hd, reduceIte]
        exact ih nn rep

@[simp] theorem runTransforms_JSONFailed (tfs : List Transform)
    (n : Normalized) (rep : Report) :
    (runTransforms tfs n rep).1.JSONFailed = rep.JSONFailed := by
  induction tfs generalizing n rep with
  | nil => rfl
  | cons tf rest ih =>
    unfold runTransforms
    rcases htf : tf n with ⟨nn, drop, reason, err⟩
    cases err with
    | some e => rfl
    | none =>
      by_cases hd : drop
      · simp only [hd, reduceIte]
        exact (addFiltered_jsonCounters rep reason).2.1
      · simp only [hd, reduceIte]
        exact ih nn rep

@[simp] theorem runTransforms_TotalLines (tfs : List Transform)
    (n : Normalized) (rep : Report) :
    (runTransforms tfs n rep).1.TotalLines = rep.TotalLines := by
  induction tfs generalizing n rep with
  | nil => rfl
  | cons tf rest ih =>
    unfold runTransforms
    rcases htf : tf n with ⟨nn, drop, reason, err⟩
    cases err with
    | some e => rfl
    | none =>
      by_cases hd : drop
      · simp only [hd, reduceIte]
        exact (addFiltered_jsonCounters rep reason).2.2
      · simp only [hd, reduceIte]
        exact ih nn rep

theorem processLine_jsonCounters (jsonParse : String → Option RawObj)
    (tsParse : String → Option String) (tfs : List Transform)
    (st : PipeState) (line : String) :
    (processLine jsonParse tsParse tfs st line).rep.TotalLines =
      st.rep.TotalLines + (if goTrim line = "" then 0 else 1) ∧
    (processLine jsonParse tsParse tfs st line).rep.JSONParsed +
      (processLine jsonParse tsParse tfs st line).rep.JSONFailed =
      st.rep.JSONParsed + st.rep.JSONFailed +
        (if goTrim line = "" then 0 else 1) := by
  unfold processLine
  by_cases hb : goTrim line = ""
  · simp [hb]
  · simp only [hb, if_false, reduceIte]
    cases hj : jsonParse line with
    | none =>
      refine ⟨?_, ?_⟩ <;> ((try simp); (try omega))
    | some js =>
      rcases hn : Normalize tsParse js with e | n <;> simp only [hn]
      · refine ⟨?_, ?_⟩ <;> ((try simp); (try omega))
      · split
        next rep2 heq =>
          have h1 := congrArg (fun p => p.1.JSONParsed) heq
          have h2 := congrArg (fun p => p.1.JSONFailed) heq
          have h3 := congrArg (fun p => p.1.TotalLines) heq
          simp at h1 h2 h3
          refine ⟨?_, ?_⟩ <;> (try simp) <;> (try omega)
        next rep2 n2 heq =>
          have h1 := congrArg (fun p => p.1.JSONParsed) heq
          have h2 := congrArg (fun p => p.1.JSONFailed) heq
          have h3 := congrArg (fun p => p.1.TotalLines) heq
          simp at h1 h2 h3
          refine ⟨?_, ?_⟩ <;> (try simp) <;> (try omega)

theorem produceAux (jsonParse : String → Option RawObj)
    (tsParse : String → Option String) (tfs : List Transform) :
    ∀ (lines : List String) (st : PipeState),
      (lines.foldl (processLine jsonParse tsParse tfs) st).rep.TotalLines =
        st.rep.TotalLines +
          (lines.filter (fun l => !(goTrim l == ""))).length ∧
      (lines.foldl (processLine jsonParse tsParse tfs) st).rep.JSONParsed +
        (lines.foldl (processLine jsonParse tsParse tfs) st).rep.JSONFailed =
        st.rep.JSONParsed + st.rep.JSONFailed +
          (lines.filter (fun l => !(goTrim l == ""))).length := by
  intro lines
  induction lines with
  | nil => intro st; simp
  | cons l rest ih =>
    intro st
    rw [List.foldl_cons]
    obtain ⟨hp1, hp2⟩ := processLine_jsonCounters jsonParse tsParse tfs st l
    obtain ⟨hr1, hr2⟩ := ih (processLine jsonParse tsParse tfs st l)
    by_cases hb : goTrim l = "" <;>
      constructor <;> simp only [hb, reduceIte, if_true, if_false,
        List.filter_cons, bne_self_eq_false, Bool.not_true, Bool.not_false,
        beq_iff_eq, List.length_cons] at hp1 hp2 ⊢ <;>
      simp [hb, hr1, hr2, hp1, hp2] <;> omega

/-- Claim C8: for every input stream processed to completion by the
producer loop, `json_parsed + json_failed = total_lines`, and
`total_lines` counts exactly the non-blank lines — empty/whitespace-only
lines are skipped without incrementing any counter. -/
theorem c8_line_accounting (jsonParse : String → Option RawObj)
    (tsParse : String → Option String) (tfs : List Transform)
    (lines : List String) :
    (produceLoop jsonParse tsParse tfs lines).rep.JSONParsed +
      (produceLoop jsonParse tsParse tfs lines).rep.JSONFailed =
      (produceLoop jsonParse tsParse tfs lines).rep.TotalLines ∧
    (produceLoop jsonParse tsParse tfs lines).rep.TotalLines =
      (lines.filter (fun l => !(goTrim l == ""))).length := by
  obtain ⟨h1, h2⟩ := produceAux jsonParse tsParse tfs lines ⟨newReport, []⟩
  unfold produceLoop
  constructor
  · rw [h2, h1]
    simp [newReport]
  · rw [h1]
    simp [newReport]

/-- `sink.RotatingJSONLSink` (`src/internal/sink/batched.go`): the segment
index, the byte count of the current segment, the set of on-disk segment
indices (index 0 is the base file `<base>`, index `i > 0` the file
`<base>.<i>`), and the byte counts of the closed segments.  Marshalling is
abstracted: a write carries the serialized record length (newline
included). -/
structure RotState where
  maxBytes : Int
  maxFiles : Int
  index : Nat
  currentSize : Int
  files : Finset ℕ
  closedSizes : List Int

/-- `NewRotatingJSONLSink` followed by the initial `openNew`: index 0,
empty current segment, only the base file on disk. -/
def RotState.new (maxBytes maxFiles : Int) : RotState :=
  { maxBytes := maxBytes, maxFiles := maxFiles, index := 0,
    currentSize := 0, files := {0}, closedSizes := [] }

/-- `rotate`: close the current segment, bump the index, delete
`<base>.<index - maxFiles>` when `maxFiles > 0 && index > maxFiles`
(deletion disabled at `maxFiles = 0`), then open the next segment. -/
def RotState.rotate (s : RotState) : RotState :=
  let s1 := { s with closedSizes := s.closedSizes ++ [s.currentSize],
                     index := s.index + 1 }
  let s2 :=
    if s1.maxFiles > 0 ∧ (s1.index : Int) > s1.maxFiles then
      { s1 with files := s1.files.erase (s1.index - s1.maxFiles.toNat) }
    else s1
  { s2 with files := insert s2.index s2.files, currentSize := 0 }

/-- `Write`: rotate first when the pending record would push the current
segment past `maxBytes`, then append the serialized bytes. -/
def RotState.write (s : RotState) (recSize : Int) : RotState :=
  let s1 := if s.currentSize + recSize > s.maxBytes then s.rotate else s
  { s1 with currentSize := s1.currentSize + recSize }

/-- A fresh rotating sink driven through a sequence of record writes. -/
def runWrites (maxBytes maxFiles : Int) (sizes : List Int) : RotState :=
  sizes.foldl RotState.write (RotState.new maxBytes maxFiles)

/-- Shape of the on-disk segment set: an initial range while the retention
window is filling, afterwards the base file plus the `maxFiles` newest
segments (the base file is never deleted: `rotatedPath` of the deletion
index never names it). -/
def filesOK (s : RotState) : Prop :=
  ((s.index : Int) ≤ s.maxFiles ∧ s.files = Finset.range (s.index + 1)) ∨
  ((s.index : Int) > s.maxFiles ∧
    s.files = insert 0 (Finset.Ioc (s.index - s.maxFiles.toNat) s.index))

/-- Segment-size bound relative to a record-size bound `M`. -/
def sizesOK (M : Int) (s : RotState) : Prop :=
  s.currentSize ≤ s.maxBytes + M ∧ ∀ c ∈ s.closedSizes, c ≤ s.maxBytes + M

theorem rotate_fields (s : RotState) :
    (s.rotate).maxBytes = s.maxBytes ∧ (s.rotate).maxFiles = s.maxFiles ∧
    (s.rotate).index = s.index + 1 ∧ (s.rotate).currentSize = 0 ∧
    (s.rotate).closedSizes = s.closedSizes ++ [s.currentSize] := by
  unfold RotState.rotate
  dsimp only
  split <;> exact ⟨rfl, rfl, rfl, rfl, rfl⟩

theorem write_fields (s : RotState) (recSize : Int) :
    (s.write recSize).maxBytes = s.maxBytes ∧
    (s.write recSize).maxFiles = s.maxFiles := by
  unfold RotState.write
  dsimp only
  split
  · exact ⟨(rotate_fields s).1, (rotate_fields s).2.1⟩
  · exact ⟨rfl, rfl⟩

theorem rotate_filesOK (s : RotState) (hmf : 1 ≤ s.maxFiles)
    (h : filesOK s) : filesOK s.rotate := by
  unfold RotState.rotate filesOK
  dsimp only
  by_cases hc : ((s.index : Int) + 1) > s.maxFiles
  · rw [if_pos (by push_cast; exact ⟨by omega, by omega⟩)]
    dsimp only
    right
    refine ⟨by push_cast; omega, ?_⟩
    rcases h with ⟨hle, hf⟩ | ⟨hgt, hf⟩
    · have hmfi : s.maxFiles = (s.index : Int) := by omega
      rw [hf]
      ext x
      simp only [Finset.mem_insert, Finset.mem_erase, Finset.mem_range,
        Finset.mem_Ioc]
      omega
    · rw [hf]
      ext x
      simp only [Finset.mem_insert, Finset.mem_erase, Finset.mem_range,
        Finset.mem_Ioc]
      omega
  · rw [if_neg (by push_cast; omega)]
    dsimp only
    left
    refine ⟨by push_cast; omega, ?_⟩
    rcases h with ⟨hle, hf⟩ | ⟨hgt, hf⟩
    · rw [hf]
      ext x
      simp only [Finset.mem_insert, Finset.mem_range]
      omega
    · omega

theorem write_filesOK (s : RotState) (recSize : Int) (hmf : 1 ≤ s.maxFiles)
    (h : filesOK s) : filesOK (s.write recSize) := by
  unfold RotState.write
  dsimp only
  split
  · have hr := rotate_filesOK s hmf h
    unfold filesOK at hr ⊢
    simpa using hr
  · simpa [filesOK] using h

theorem write_sizesOK (M : Int) (s : RotState) (recSize : Int)
    (hmb : 0 ≤ s.maxBytes) (hM : 0 ≤ M) (hrec : 0 ≤ recSize ∧ recSize ≤ M)
    (h : sizesOK M s) : sizesOK M (s.write recSize) := by
  obtain ⟨rb, rf, ri, rc, rcl⟩ := rotate_fields s
  unfold RotState.write
  dsimp only
  split
  next hcond =>
    constructor
    · show s.rotate.currentSize + recSize ≤ s.rotate.maxBytes + M
      rw [rc, rb]
      omega
    · show ∀ c ∈ s.rotate.closedSizes, c ≤ s.rotate.maxBytes + M
      rw [rcl, rb]
      intro c hcmem
      rcases List.mem_append.mp hcmem with hold | hnew
      · exact h.2 c hold
      · have hcc : c = s.currentSize := by simpa using hnew
        have h1 := h.1
        omega
  next hcond =>
    refine ⟨?_, h.2⟩
    show s.currentSize + recSize ≤ s.maxBytes + M
    omega

theorem runWrites_inv (M : Int) (hM : 0 ≤ M) :
    ∀ (sizes : List Int) (s : RotState), 0 ≤ s.maxBytes →
      (∀ x ∈ sizes, 0 ≤ x ∧ x ≤ M) →
      (sizesOK M s → sizesOK M (sizes.foldl RotState.write s)) ∧
      (1 ≤ s.maxFiles → filesOK s →
        filesOK (sizes.foldl RotState.write s)) := by
  intro sizes
  induction sizes with
  | nil => intro s _ _; exact ⟨id, fun _ => id⟩
  | cons x rest ih =>
    intro s hmb hbound
    have hx := hbound x (by simp)
    have hrest : ∀ y ∈ rest, 0 ≤ y ∧ y ≤ M := fun y hy =>
      hbound y (List.mem_cons_of_mem x hy)
    rw [List.foldl_cons]
    obtain ⟨hwb, hwf⟩ := write_fields s x
    have := ih (s.write x) (by rw [hwb]; exact hmb) hrest
    constructor
    · intro hs
      exact this.1 (write_sizesOK M s x hmb hM hx hs)
    · intro hmf hf
      exact this.2 (by rw [hwf]; exact hmf) (write_filesOK s x hmf hf)

theorem filesOK_card (s : RotState) (hmf : 1 ≤ s.maxFiles)
    (h : filesOK s) : (s.files.card : Int) ≤ s.maxFiles + 1 := by
  rcases h with ⟨hle, hf⟩ | ⟨hgt, hf⟩
  · rw [hf, Finset.card_range]
    push_cast
    omega
  · rw [hf, Finset.card_insert_of_not_mem (by simp), Nat.card_Ioc]
    push_cast
    omega

/-- Claim C3 is false as stated at `max_files = 0`: deletion is disabled,
so after three rotations four segments are on disk, exceeding the claimed
bound `max(max_files, 1) + 1 = 2`. -/
theorem c3_counterexample :
    (runWrites 10 0 [6, 6, 6, 6]).files.card = 4 ∧
    max (0 : Int) 1 + 1 = 2 ∧ ¬((4 : Int) ≤ 2) := by
  refine ⟨by decide, by decide, by decide⟩

/-- Claim C3 (amended): for `max_files ≥ 1` the number of on-disk segments
never exceeds `max_files + 1` (the base file plus the retained window);
the byte-size bound — no segment exceeds `max_bytes` plus the largest
serialized record — holds for every `max_files`, deletion enabled or not.
For `max_files = 0` the segment count is unbounded (see the
counterexample). -/
theorem c3_rotating_sink_bounds (maxBytes maxFiles M : Int)
    (sizes : List Int) (hmb : 0 ≤ maxBytes) (hM : 0 ≤ M)
    (hsz : ∀ x ∈ sizes, 0 ≤ x ∧ x ≤ M) :
    (1 ≤ maxFiles →
      (((runWrites maxBytes maxFiles sizes).files.card : Int) ≤
        maxFiles + 1)) ∧
    (runWrites maxBytes maxFiles sizes).currentSize ≤ maxBytes + M ∧
    ∀ c ∈ (runWrites maxBytes maxFiles sizes).closedSizes,
      c ≤ maxBytes + M := by
  have hnew_b : (RotState.new maxBytes maxFiles).maxBytes = maxBytes := rfl
  have hinv := runWrites_inv M hM sizes (RotState.new maxBytes maxFiles)
    (by rw [hnew_b]; exact hmb) hsz
  have hpres : ∀ (l : List Int) (s : RotState),
      (l.foldl RotState.write s).maxBytes = s.maxBytes ∧
      (l.foldl RotState.write s).maxFiles = s.maxFiles := by
    intro l
    induction l with
    | nil => intro s; exact ⟨rfl, rfl⟩
    | cons y ys ih =>
      intro s
      rw [List.foldl_cons]
      obtain ⟨hb, hf⟩ := write_fields s y
      obtain ⟨hb2, hf2⟩ := ih (s.write y)
      exact ⟨hb2.trans hb, hf2.trans hf⟩
  obtain ⟨hpb0, hpf0⟩ := hpres sizes (RotState.new maxBytes maxFiles)
  have hpb : (runWrites maxBytes maxFiles sizes).maxBytes = maxBytes := hpb0
  have hpf : (runWrites maxBytes maxFiles sizes).maxFiles = maxFiles := hpf0
  have hsOK : sizesOK M (runWrites maxBytes maxFiles sizes) :=
    hinv.1 ⟨by simp [RotState.new]; omega, by simp [RotState.new]⟩
  refine ⟨?_, ?_, ?_⟩
  · intro hmf
    have hfOK : filesOK (runWrites maxBytes maxFiles sizes) :=
      hinv.2 hmf (Or.inl ⟨by simp [RotState.new]; omega, by
        simp [RotState.new]⟩)
    have := filesOK_card (runWrites maxBytes maxFiles sizes)
      (by rw [hpf]; exact hmf) hfOK
    rw [hpf] at this
    exact this
  · have := hsOK.1
    rw [hpb] at this
    exact this
  · intro c hc
    have h2 := hsOK.2 c hc
    rw [hpb] at h2
    exact h2

/-- Witness: the amended C3 bounds at a concrete rotation run. -/
theorem c3_rotating_sink_bounds_witness :
    (1 ≤ (2 : Int) →
      (((runWrites 10 2 [6, 6, 6, 6, 6]).files.card : Int) ≤ 2 + 1)) ∧
    (runWrites 10 2 [6, 6, 6, 6, 6]).currentSize ≤ 10 + 6 ∧
    ∀ c ∈ (runWrites 10 2 [6, 6, 6, 6, 6]).closedSizes, c ≤ 10 + 6 :=
  c3_rotating_sink_bounds 10 2 6 [6, 6, 6, 6, 6] (by decide) (by decide)
    (by decide)

/-- Observable state of the `runPipeline` driver (`src/cmd/etl/main.go`)
with one worker: the unread input lines, the cancellation flag (SIGINT or
SIGTERM fired), whether the producer loop has exited, whether `close(queue)`
has run, the buffered channel content, whether the worker goroutine has
returned, and the records it has processed.  Channel capacity and real
time (the shutdown timer) are not modelled; they do not bear on the
ordering facts below. -/
structure DrvState where
  pending : List Nat
  cancelled : Bool
  prodDone : Bool
  chClosed : Bool
  queue : List Nat
  workerDone : Bool
  processed : List Nat

/-- Interleaved small steps of the driver, translated from the Go control
flow: the producer checks cancellation each iteration and enqueues
otherwise; `close(queue)` runs only after the producer loop exits; the
worker's `select` races `ctx.Done()` against the channel receive, so when
both are ready either branch may fire; a receive on the closed, drained
channel returns `ok = false` and ends the worker. -/
inductive DrvStep : DrvState → DrvState → Prop where
  | signal (s : DrvState) :
      DrvStep s { s with cancelled := true }
  | produce (s : DrvState) (x : Nat) (rest : List Nat) :
      s.prodDone = false → s.cancelled = false → s.pending = x :: rest →
      DrvStep s { s with pending := rest, queue := s.queue ++ [x] }
  | prodBreak (s : DrvState) :
      s.prodDone = false → s.cancelled = true →
      DrvStep s { s with prodDone := true }
  | prodEOF (s : DrvState) :
      s.prodDone = false → s.pending = [] →
      DrvStep s { s with prodDone := true }
  | closeCh (s : DrvState) :
      s.prodDone = true → s.chClosed = false →
      DrvStep s { s with chClosed := true }
  | workerRecv (s : DrvState) (x : Nat) (rest : List Nat) :
      s.workerDone = false → s.queue = x :: rest →
      DrvStep s { s with queue := rest, processed := s.processed ++ [x] }
  | workerCancel (s : DrvState) :
      s.workerDone = false → s.cancelled = true →
      DrvStep s { s with workerDone := true }
  | workerClosed (s : DrvState) :
      s.workerDone = false → s.chClosed = true → s.queue = [] →
      DrvStep s { s with workerDone := true }

/-- Reachability along driver steps. -/
def DrvReach : DrvState → DrvState → Prop := Relation.ReflTransGen DrvStep

/-- The driver's initial state for a given input. -/
def initDrv (lines : List Nat) : DrvState :=
  { pending := lines, cancelled := false, prodDone := false,
    chClosed := false, queue := [], workerDone := false, processed := [] }

/-- Claim C9 is false in its draining half: there is an execution in which
cancellation fires, the producer breaks out, the channel is closed, and
the worker takes the `ctx.Done()` branch of its `select` and returns
immediately, abandoning both buffered items unprocessed. -/
theorem c9_counterexample :
    DrvReach (initDrv [1, 2])
      { pending := [], cancelled := true, prodDone := true, chClosed := true,
        queue := [1, 2], workerDone := true, processed := [] } ∧
    ([1, 2] : List Nat) ≠ [] := by
  constructor
  · refine Relation.ReflTransGen.head
      (DrvStep.produce (initDrv [1, 2]) 1 [2] rfl rfl rfl) ?_
    refine Relation.ReflTransGen.head
      (DrvStep.produce _ 2 [] rfl rfl rfl) ?_
    refine Relation.ReflTransGen.head (DrvStep.signal _) ?_
    refine Relation.ReflTransGen.head (DrvStep.prodBreak _ rfl rfl) ?_
    refine Relation.ReflTransGen.head (DrvStep.closeCh _ rfl rfl) ?_
    refine Relation.ReflTransGen.head (DrvStep.workerCancel _ rfl rfl) ?_
    exact Relation.ReflTransGen.refl
  · decide

/-- Claim C9 (amended): along every execution the channel is never closed
before the producer loop has exited; and after cancellation the worker's
receive branch remains enabled while items are queued, so draining is
possible — but, per the counterexample, not guaranteed, since the worker
may take the cancellation branch instead.  The shutdown timeout is real
time and outside this model. -/
theorem c9_close_after_producer :
    (∀ s t : DrvState, DrvStep s t →
      (s.chClosed = true → s.prodDone = true) →
      (t.chClosed = true → t.prodDone = true)) ∧
    (∀ (s0 s : DrvState), DrvReach s0 s →
      (s0.chClosed = true → s0.prodDone = true) →
      (s.chClosed = true → s.prodDone = true)) ∧
    (∀ (s : DrvState) (x : Nat) (rest : List Nat),
      s.workerDone = false → s.queue = x :: rest →
      DrvStep s { s with queue := rest, processed := s.processed ++ [x] }) := by
  have hstep : ∀ s t : DrvState, DrvStep s t →
      (s.chClosed = true → s.prodDone = true) →
      (t.chClosed = true → t.prodDone = true) := by
    intro s t hst hinv
    cases hst <;> simp_all
  refine ⟨hstep, ?_, fun s x rest h1 h2 => DrvStep.workerRecv s x rest h1 h2⟩
  intro s0 s hreach
  induction hreach with
  | refl => exact id
  | tail hr hstep2 ih =>
    intro h0
    exact hstep _ _ hstep2 (ih h0)

/-- Witness: the close-after-producer invariant applied along a concrete
run that closes the channel. -/
theorem c9_close_after_producer_witness :
    ({ pending := [], cancelled := false, prodDone := true, chClosed := true,
       queue := [], workerDone := false, processed := [] } : DrvState).prodDone
      = true := by
  refine c9_close_after_producer.2.1 (initDrv []) _ ?_ (by simp [initDrv]) rfl
  refine Relation.ReflTransGen.head (DrvStep.prodEOF (initDrv []) rfl rfl) ?_
  refine Relation.ReflTransGen.head (DrvStep.closeCh _ rfl rfl) ?_
  exact Relation.ReflTransGen.refl
